import Mathlib

/-!
Verification of the vendor normalization and suitability scoring pipeline
of the alternate-vendor procurement app.  Strings are modelled as `List Char`;
JavaScript values are modelled by the `JsValue` inductive; JS objects are
modelled as insertion-ordered association lists.  Every definition below is a
direct transliteration of the corresponding function in
`src/src/data/mockData.js`, `src/src/pages/Results.jsx`,
`src/src/pages/Compare.jsx` and `src/src/pages/VendorDetail.jsx`.
-/

set_option maxRecDepth 10000

/-- Shorthand: the character list of a string literal. -/
def lc (s : String) : List Char := s.data

/-- JS whitespace (`\s`) restricted to the ASCII whitespace characters that
occur in the data handled by the pipeline. -/
def isJsSpace (c : Char) : Bool :=
  c = ' ' || c = '\t' || c = '\n' || c = '\r' || c = Char.ofNat 11 || c = Char.ofNat 12

/-- JS word character (`\w`): ASCII alphanumeric or underscore. -/
def isWordChar (c : Char) : Bool := c.isAlphanum || c = '_'

/-- Drop leading whitespace (first half of `String.prototype.trim`). -/
def trimStart (s : List Char) : List Char := s.dropWhile isJsSpace

/-- Drop trailing whitespace (second half of `String.prototype.trim`). -/
def trimEnd : List Char → List Char
  | [] => []
  | c :: t =>
    let r := trimEnd t
    if r.isEmpty then (if isJsSpace c then [] else [c]) else c :: r

/-- JS `value.trim()`. -/
def jsTrim (s : List Char) : List Char := trimEnd (trimStart s)

/-- Boolean prefix test on character lists. -/
def isPrefixL : List Char → List Char → Bool
  | [], _ => true
  | _ :: _, [] => false
  | a :: s, b :: t => a = b && isPrefixL s t

/-- JS `hay.includes(needle)`: contiguous substring test. -/
def isSubstringOf (needle : List Char) : List Char → Bool
  | [] => needle.isEmpty
  | c :: t => isPrefixL needle (c :: t) || isSubstringOf needle t

/-- Consume a literal `://`. -/
def dropColonSlashSlash : List Char → Option (List Char)
  | ':' :: '/' :: '/' :: r => some r
  | _ => none

/-- Consume a case-insensitive `http://` or `https://` scheme
(the `https?:\/\/` part of both citation regexes, under the `i` flag). -/
def stripScheme : List Char → Option (List Char)
  | c1 :: c2 :: c3 :: c4 :: rest =>
    if c1.toLower = 'h' && c2.toLower = 't' && c3.toLower = 't' && c4.toLower = 'p' then
      match rest with
      | c5 :: rest2 => if c5.toLower = 's' then dropColonSlashSlash rest2 else dropColonSlashSlash rest
      | [] => none
    else none
  | _ => none

/-- Does the whole list match `\s*\[https?:\/\/[^\]]+\]\s*$` (a trailing
bracketed-URL citation)?  Used as the end-anchored match predicate for the
first `replace` in `cleanUrlCitations`. -/
def isBracketCitationEnd (l : List Char) : Bool :=
  match trimStart l with
  | '[' :: rest =>
    match stripScheme rest with
    | some r =>
      let body := r.takeWhile (fun c => c ≠ ']')
      let after := r.dropWhile (fun c => c ≠ ']')
      !body.isEmpty &&
        (match after with
         | ']' :: ws => ws.all isJsSpace
         | _ => false)
    | none => false
  | _ => false

/-- After the `](` of a markdown link: `https?:\/\/[^)]+\)\)\s*$`. -/
def mdUrlTail (l : List Char) : Bool :=
  match stripScheme l with
  | some r =>
    let u := r.takeWhile (fun c => c ≠ ')')
    let after := r.dropWhile (fun c => c ≠ ')')
    !u.isEmpty && (match after with | ')' :: ')' :: ws => ws.all isJsSpace | _ => false)
  | none => false

/-- Scan the lazy `.*?\]\(https?...` part of the markdown-citation regex:
search for a `](` followed by a URL tail, where the skipped characters may be
anything except a newline (JS `.`). -/
def mdScan : List Char → Bool
  | [] => false
  | ']' :: rest =>
    (match rest with | '(' :: r2 => mdUrlTail r2 | _ => false) || mdScan rest
  | c :: rest => decide (c ≠ '\n') && mdScan rest

/-- Does the whole list match `\s*\(\[.*?\]\(https?:\/\/[^)]+\)\)\s*$`
(a trailing markdown-style link citation)? -/
def isMdCitationEnd (l : List Char) : Bool :=
  match trimStart l with
  | '(' :: '[' :: rest => mdScan rest
  | _ => false

/-- JS `s.replace(pattern, '')` for an end-anchored pattern: remove the
leftmost-starting suffix that fully matches `p`; if no suffix matches, return
the string unchanged. -/
def replaceEndMatch (p : List Char → Bool) (s : List Char) : List Char :=
  match (List.range (s.length + 1)).find? (fun i => p (s.drop i)) with
  | some i => s.take i
  | none => s

/-- Does some suffix of `s` match `p`?  (I.e. would the end-anchored
`replace` change the string.) -/
def hasEndMatch (p : List Char → Bool) (s : List Char) : Bool :=
  (List.range (s.length + 1)).any (fun i => p (s.drop i))

/-- A JavaScript runtime value (as far as the pipeline observes it):
`undefined`, `null`, `NaN`, booleans, numbers (as rationals), strings,
arrays and plain objects (insertion-ordered key/value lists). -/
inductive JsValue : Type where
  | undefined : JsValue
  | null : JsValue
  | nan : JsValue
  | bool : Bool → JsValue
  | num : ℚ → JsValue
  | str : List Char → JsValue
  | arr : List JsValue → JsValue
  | obj : List (List Char × JsValue) → JsValue

instance : Inhabited JsValue := ⟨JsValue.undefined⟩

/-- JS truthiness. -/
def jsTruthy : JsValue → Bool
  | .undefined => false
  | .null => false
  | .nan => false
  | .bool b => b
  | .num q => decide (q ≠ 0)
  | .str s => !s.isEmpty
  | .arr _ => true
  | .obj _ => true

/-- JS `typeof v === 'object'` (true for `null`, arrays and objects). -/
def isObjectType : JsValue → Bool
  | .null => true
  | .arr _ => true
  | .obj _ => true
  | _ => false

/-- Is the value exactly `undefined`? -/
def isUndefined : JsValue → Bool
  | .undefined => true
  | _ => false

/-- Is the value exactly `null`? -/
def isNullV : JsValue → Bool
  | .null => true
  | _ => false

/-- Is the value a string? -/
def isStr : JsValue → Bool
  | .str _ => true
  | _ => false

/-- Is the value the string `'NA'`?  (JS `v === 'NA'`.) -/
def isNAstr : JsValue → Bool
  | .str s => decide (s = lc "NA")
  | _ => false

/-- Property access `v[k]`: `undefined` on non-objects and missing keys. -/
def getField : JsValue → List Char → JsValue
  | .obj fs, k =>
    match fs.find? (fun kv => decide (kv.1 = k)) with
    | some kv => kv.2
    | none => .undefined
  | _, _ => .undefined

/-- The string produced by the two citation-stripping replaces of
`cleanUrlCitations` (before the empty-result guard). -/
def cleanedStr (s : List Char) : List Char :=
  jsTrim (replaceEndMatch isMdCitationEnd (jsTrim (replaceEndMatch isBracketCitationEnd s)))

/-- `cleanUrlCitations(value)` from `mockData.js`: non-strings pass through;
strings lose a trailing bracketed-URL citation and then a trailing
markdown-link citation (each strip followed by a `trim`); if the result is
the empty string the original value is returned instead. -/
def cleanUrlCitations : JsValue → JsValue
  | .str s => if (cleanedStr s).isEmpty then .str s else .str (cleanedStr s)
  | v => v

/-- Collapse runs of whitespace into single spaces
(the `.replace(/\s+/g, ' ')` step of `normalize` in `fuzzyMatch`);
`prev` records whether the previous emitted character was a space. -/
def collapseSpaces : Bool → List Char → List Char
  | _, [] => []
  | prev, c :: t =>
    if isJsSpace c then
      (if prev then collapseSpaces true t else ' ' :: collapseSpaces true t)
    else c :: collapseSpaces false t

/-- The `normalize` helper of `fuzzyMatch`: lowercase, replace
non-word/non-space characters with spaces, collapse whitespace, trim. -/
def normalizeName (s : List Char) : List Char :=
  jsTrim (collapseSpaces false
    (s.map (fun c =>
      let d := c.toLower
      if isWordChar d || isJsSpace d then d else ' ')))

/-- JS `s.split(sep)` for a single-character separator (keeps empty pieces). -/
def splitOnChar (sep : Char) : List Char → List (List Char)
  | [] => [[]]
  | c :: t =>
    match splitOnChar sep t with
    | [] => [[]]
    | f :: rest => if c = sep then [] :: f :: rest else (c :: f) :: rest

/-- The `commonTerms` stop-list of `fuzzyMatch`. -/
def commonTerms : List (List Char) :=
  [lc "ltd", lc "inc", lc "corp", lc "co", lc "company", lc "llc", lc "gmbh",
   lc "ag", lc "sa", lc "part", lc "of", lc "the", lc "and"]

/-- The `extractKeyWords` helper of `fuzzyMatch`: split on spaces, keep words
longer than 2 characters that are not common corporate terms. -/
def keyWords (s : List Char) : List (List Char) :=
  (splitOnChar ' ' s).filter (fun w => decide (2 < w.length) && !(decide (w ∈ commonTerms)))

/-- One token-pair test of `fuzzyMatch`: equal, or one a substring of the
other (`w1 === w2 || w1.includes(w2) || w2.includes(w1)`). -/
def wordsMatch (a b : List Char) : Bool :=
  decide (a = b) || isSubstringOf b a || isSubstringOf a b

/-- `matchCount` of `fuzzyMatch`: how many words of the first list have a
matching word in the second. -/
def matchCount (w1 w2 : List (List Char)) : ℕ :=
  w1.countP (fun a => w2.any (fun b => wordsMatch a b))

/-- `fuzzyMatch(str1, str2)` from `mockData.js`.  Empty (falsy) names score
0; equal normalizations score 1; containment scores 0.9; otherwise the
proportion of matched key words over the larger word count. -/
def fuzzyMatch (str1 str2 : List Char) : ℚ :=
  if str1 = [] ∨ str2 = [] then 0
  else
    let n1 := normalizeName str1
    let n2 := normalizeName str2
    if n1 = n2 then 1
    else if isSubstringOf n2 n1 || isSubstringOf n1 n2 then 9/10
    else
      let w1 := keyWords n1
      let w2 := keyWords n2
      if w1 = [] ∨ w2 = [] then 0
      else (matchCount w1 w2 : ℚ) / ((max w1.length w2.length : ℕ) : ℚ)

/-- `isManufacturerDirect(vendorName, manufacturerName)` from `mockData.js`:
the fuzzy score is at least 0.5. -/
def isManufacturerDirect (vendorName manufacturerName : List Char) : Bool :=
  decide ((1 : ℚ)/2 ≤ fuzzyMatch vendorName manufacturerName)

/-- JS `a || b`. -/
def jsOr (a b : JsValue) : JsValue := if jsTruthy a then a else b

/-- `getSpecValue(vendor, specKey)` from `mockData.js`: look the key up in
`vendor.specs` (when that entry is a truthy object, take its `.value`),
otherwise fall back to the same-named top-level field; either way apply
`cleanUrlCitations`. -/
def getSpecValue (vendor : JsValue) (specKey : List Char) : JsValue :=
  let specs := jsOr (getField vendor (lc "specs")) (.obj [])
  let entry := getField specs specKey
  if jsTruthy entry && isObjectType entry then cleanUrlCitations (getField entry (lc "value"))
  else cleanUrlCitations (getField vendor specKey)

/-- The certification-parsing block of `transformApiVendor`
(lines 451-459 of `mockData.js`), applied to
`certValue = getSpecValue(vendor, 'certifications')`:
arrays are mapped through `cleanUrlCitations`; strings are split on commas,
each piece trimmed, citation-stripped and dropped when falsy; anything else
(including absent / `'NA'`) yields the empty list. -/
def parseCertifications (certValue : JsValue) : List JsValue :=
  if jsTruthy certValue && !(isNAstr certValue) then
    match certValue with
    | .arr l => l.map cleanUrlCitations
    | .str s => ((splitOnChar ',' s).map (fun p => cleanUrlCitations (.str (jsTrim p)))).filter jsTruthy
    | _ => []
  else []

/-- The price-display block of `transformApiVendor`: the citation-cleaned
spec value when truthy and not `'NA'`, otherwise the string `'NA'`. -/
def priceDisplayOf (vendor : JsValue) : JsValue :=
  let pv := getSpecValue vendor (lc "price")
  if jsTruthy pv && !(isNAstr pv) then pv else .str (lc "NA")

/-- JS `Math.round` (round half toward positive infinity). -/
def jsRoundQ (q : ℚ) : ℚ := ((⌊q + 1/2⌋ : ℤ) : ℚ)

/-- `Math.round(recommendation_score * 100)`: numbers are rounded, any other
operand makes the product (hence the rounding) `NaN`. -/
def roundTimes100 : JsValue → JsValue
  | .num q => .num (jsRoundQ (q * 100))
  | _ => .nan

/-- The suitability-score selection of `transformApiVendor`
(lines 462-468 of `mockData.js`): `suitability_score` when defined, else
`round(recommendation_score * 100)` when defined, else `95 - index*3`. -/
def rawSuitability (vendor : JsValue) (index : ℕ) : JsValue :=
  if !(isUndefined (getField vendor (lc "suitability_score"))) then
    getField vendor (lc "suitability_score")
  else if !(isUndefined (getField vendor (lc "recommendation_score"))) then
    roundTimes100 (getField vendor (lc "recommendation_score"))
  else .num (95 - 3 * (index : ℚ))

/-- A vendor entity on the frontend side: a JS object modelled as an
insertion-ordered association list. -/
abbrev Vendor := List (List Char × JsValue)

/-- JS property assignment `o[k] = v` on an object: update in place when the
key exists (keeping its position), otherwise append. -/
def setField : Vendor → List Char → JsValue → Vendor
  | [], k, v => [(k, v)]
  | (k2, v2) :: t, k, v => if k2 = k then (k2, v) :: t else (k2, v2) :: setField t k v

/-- JS `o.hasOwnProperty(k)`. -/
def hasField (fs : Vendor) (k : List Char) : Bool := fs.any (fun kv => decide (kv.1 = k))

/-- Property read on a vendor object. -/
def objGet (fs : Vendor) (k : List Char) : JsValue :=
  match fs.find? (fun kv => decide (kv.1 = k)) with
  | some kv => kv.2
  | none => .undefined

/-- `fuzzyMatch` lifted to JS values, as it is invoked inside
`transformApiVendor` on `vendor.vendor_name` and the extracted manufacturer
name.  Falsy names (empty string, `undefined`, `null`) score 0 as in the
source; a truthy non-string name would raise a `TypeError` in JS and is
modelled as score 0 (no claim exercises that case). -/
def fuzzyMatchJs : JsValue → JsValue → ℚ
  | .str a, .str b => fuzzyMatch a b
  | _, _ => 0

/-- `isManufacturerDirect` on JS values. -/
def isManufacturerDirectJs (a b : JsValue) : Bool :=
  decide ((1 : ℚ)/2 ≤ fuzzyMatchJs a b)

/-- The base object literal built by `transformApiVendor`
(lines 488-517 of `mockData.js`), field for field and in source order. -/
def baseVendor (vendor : JsValue) (index : ℕ) : Vendor :=
  [ (lc "id", jsOr (getField vendor (lc "id")) (.num ((index : ℚ) + 1))),
    (lc "name", getField vendor (lc "vendor_name")),
    (lc "productName", jsOr (getField vendor (lc "product_name")) (.str [])),
    (lc "source", .str (lc "EXT")),
    (lc "isCurrentPartner", .bool false),
    (lc "isPreferred", .bool (decide (index = 0))),
    (lc "isBestValue", .bool false),
    (lc "isManufacturerDirect",
      .bool (isManufacturerDirectJs (getField vendor (lc "vendor_name"))
        (jsOr (getSpecValue vendor (lc "manufacturer")) (.str [])))),
    (lc "manufacturerName", jsOr (jsOr (getSpecValue vendor (lc "manufacturer")) (.str [])) JsValue.null),
    (lc "unitPrice", JsValue.null),
    (lc "unitPriceDisplay", priceDisplayOf vendor),
    (lc "totalEstCost", JsValue.null),
    (lc "availableQty", JsValue.null),
    (lc "region", jsOr (getField vendor (lc "manufacturer_country"))
      (jsOr (getField vendor (lc "region")) (.str (lc "NA")))),
    (lc "leadTime", jsOr (getSpecValue vendor (lc "lead_time")) (.str (lc "NA"))),
    (lc "suitabilityScore", rawSuitability vendor index),
    (lc "certifications", .arr (parseCertifications (getSpecValue vendor (lc "certifications")))),
    (lc "shelfLife", jsOr (getSpecValue vendor (lc "shelf_life")) (.str (lc "NA"))),
    (lc "packaging", jsOr (getSpecValue vendor (lc "plate_format"))
      (jsOr (getSpecValue vendor (lc "pack_size")) (.str (lc "NA")))),
    (lc "storage", jsOr (getSpecValue vendor (lc "storage_condition")) (.str (lc "NA"))),
    (lc "internalHistory", JsValue.null),
    (lc "riskAssessment", JsValue.null),
    (lc "website", jsOr (getField vendor (lc "product_url")) (.str [])),
    (lc "lat", JsValue.null),
    (lc "lng", JsValue.null),
    (lc "_apiData", vendor) ]

/-- `Object.entries(v)` for objects, and for arrays (whose entries are the
decimal string indices). -/
def entriesOf : JsValue → List (List Char × JsValue)
  | .obj fs => fs
  | .arr l => ((List.range l.length).zip l).map (fun p => (Nat.toDigits 10 p.1, p.2))
  | _ => []

/-- The entries iterated by the nested-specs copy loop of
`transformApiVendor`: `Object.entries(vendor.specs)` when `vendor.specs` is
a truthy object, nothing otherwise. -/
def specsEntriesOf (vendor : JsValue) : List (List Char × JsValue) :=
  let s := getField vendor (lc "specs")
  if jsTruthy s && isObjectType s then entriesOf s else []

/-- One iteration of the nested-specs copy loop (lines 519-532 of
`mockData.js`): skip `price` and `certifications`; for a truthy object entry
whose `.value` is defined, citation-clean the value and assign it under the
spec key when it is truthy and not `'NA'`. -/
def specsStep (tv : Vendor) (k : List Char) (specObj : JsValue) : Vendor :=
  if k = lc "price" ∨ k = lc "certifications" then tv
  else if jsTruthy specObj && isObjectType specObj && !(isUndefined (getField specObj (lc "value"))) then
    (if jsTruthy (cleanUrlCitations (getField specObj (lc "value")))
        && !(isNAstr (cleanUrlCitations (getField specObj (lc "value")))) then
      setField tv k (cleanUrlCitations (getField specObj (lc "value")))
    else tv)
  else tv

/-- The nested-specs copy loop as a fold over the spec entries. -/
def specsFold : Vendor → List (List Char × JsValue) → Vendor
  | tv, [] => tv
  | tv, e :: rest => specsFold (specsStep tv e.1 e.2) rest

/-- The `fixedFields` list of `transformApiVendor` (lines 478-485). -/
def apiFixedFields : List (List Char) :=
  [lc "id", lc "vendor_name", lc "product_name", lc "product_description", lc "product_url",
   lc "discovery_confidence", lc "recommendation_score", lc "discovery_concerns",
   lc "specs_availability", lc "specs", lc "manufacturer_country", lc "region",
   lc "availability_status", lc "certifications", lc "price", lc "source_urls",
   lc "crawled_data", lc "crawled_at", lc "extracted_info", lc "suitability_score",
   lc "manufacturer", lc "isManufacturerDirect", lc "manufacturerName"]

/-- One iteration of the legacy top-level copy loop (lines 535-543 of
`mockData.js`): copy a non-fixed, not-yet-present, non-null/undefined field;
strings are citation-cleaned, non-object values are copied as-is, objects
and arrays are skipped. -/
def legacyStep (tv : Vendor) (k : List Char) (v : JsValue) : Vendor :=
  if !(decide (k ∈ apiFixedFields)) && !(hasField tv k) && !(isNullV v) && !(isUndefined v) then
    match v with
    | .str s => setField tv k (cleanUrlCitations (.str s))
    | .arr _ => tv
    | .obj _ => tv
    | w => setField tv k w
  else tv

/-- The legacy top-level copy loop as a fold over `Object.entries(vendor)`. -/
def legacyFold : Vendor → List (List Char × JsValue) → Vendor
  | tv, [] => tv
  | tv, e :: rest => legacyFold (legacyStep tv e.1 e.2) rest

/-- `transformApiVendor(vendor, index)` from `mockData.js` (first copy,
lines 442-546): base object, then the nested-specs copy loop, then the
legacy top-level copy loop. -/
def transformApiVendor (vendor : JsValue) (index : ℕ) : Vendor :=
  legacyFold (specsFold (baseVendor vendor index) (specsEntriesOf vendor)) (entriesOf vendor)

/-- `data.vendors.map((v, i) => transformApiVendor(v, i))` from
`api.getVendors`, with an explicit running index. -/
def transformAllFrom (index : ℕ) : List JsValue → List Vendor
  | [] => []
  | v :: rest => transformApiVendor v index :: transformAllFrom (index + 1) rest

/-- The `currentPartnerOnly` filter of `api.getVendors`:
`vendors.filter(v => v.isCurrentPartner)`. -/
def filterCurrentPartner (vs : List Vendor) : List Vendor :=
  vs.filter (fun v => jsTruthy (objGet v (lc "isCurrentPartner")))

/-- `Object.keys(vendor)` (insertion order). -/
def keysOf (v : Vendor) : List (List Char) := v.map Prod.fst

/-- The `fixedFields` reserved list of `Results.jsx`. -/
def resultsFixedFields : List (List Char) :=
  [lc "id", lc "name", lc "productName", lc "source", lc "isCurrentPartner", lc "isPreferred",
   lc "isBestValue", lc "isFastest", lc "unitPrice", lc "unitPriceDisplay", lc "totalEstCost",
   lc "availableQty", lc "region", lc "leadTime", lc "suitabilityScore", lc "certifications",
   lc "internalHistory", lc "riskAssessment", lc "website", lc "lat", lc "lng", lc "_apiData",
   lc "vendor_name", lc "product_url", lc "availability_status", lc "price",
   lc "product_description", lc "crawled_data", lc "crawled_at", lc "extracted_info",
   lc "source_urls", lc "shelfLife", lc "packaging", lc "storage", lc "locking",
   lc "isManufacturerDirect", lc "manufacturerName"]

/-- The `fixedFields` reserved list of `Compare.jsx` (note: it lists `url`
where `Results.jsx` lists `manufacturerName`). -/
def compareFixedFields : List (List Char) :=
  [lc "id", lc "name", lc "productName", lc "source", lc "isCurrentPartner", lc "isPreferred",
   lc "isBestValue", lc "isFastest", lc "unitPrice", lc "unitPriceDisplay", lc "totalEstCost",
   lc "availableQty", lc "region", lc "leadTime", lc "suitabilityScore", lc "certifications",
   lc "internalHistory", lc "riskAssessment", lc "website", lc "lat", lc "lng", lc "_apiData",
   lc "vendor_name", lc "product_url", lc "availability_status", lc "price",
   lc "product_description", lc "crawled_data", lc "crawled_at", lc "extracted_info",
   lc "source_urls", lc "shelfLife", lc "packaging", lc "storage", lc "locking",
   lc "isManufacturerDirect", lc "url"]

/-- Is `k` a dynamic key in the `Results.jsx` sense (not reserved)? -/
def isDynKeyR (k : List Char) : Bool := !(decide (k ∈ resultsFixedFields))

/-- The concatenated per-vendor dynamic-key sequences of `Results.jsx`
(`sortedVendors.flatMap(vendor => Object.keys(vendor).filter(...))`). -/
def dynKeySeqR : List Vendor → List (List Char)
  | [] => []
  | v :: rest => (keysOf v).filter isDynKeyR ++ dynKeySeqR rest

/-- `[...new Set(list)]`: deduplicate keeping first occurrences;
`seen` accumulates the keys already emitted. -/
def dedupAux (seen : List (List Char)) : List (List Char) → List (List Char)
  | [] => []
  | k :: rest => if k ∈ seen then dedupAux seen rest else k :: dedupAux (k :: seen) rest

/-- `[...new Set(list)]`. -/
def dedupFirst (l : List (List Char)) : List (List Char) := dedupAux [] l

/-- `allDynamicKeys` from `Results.jsx` (lines 128-133). -/
def allDynamicKeys (vs : List Vendor) : List (List Char) := dedupFirst (dynKeySeqR vs)

/-- `comparisonAttributes` from `Results.jsx` (line 136): the first four
dynamic keys. -/
def comparisonAttributes (vs : List Vendor) : List (List Char) := (allDynamicKeys vs).take 4

/-- The per-value condition of `Compare.jsx`:
`v !== null && v !== undefined && v !== 'NA' && v !== ''`. -/
def valMeaningful : JsValue → Bool
  | .null => false
  | .undefined => false
  | .str s => !(decide (s = lc "NA")) && !s.isEmpty
  | _ => true

/-- Is `k` a dynamic key of vendor `v` in the `Compare.jsx` sense
(not reserved, and carrying a meaningful value on `v`)? -/
def isDynKeyC (v : Vendor) (k : List Char) : Bool :=
  !(decide (k ∈ compareFixedFields)) && valMeaningful (objGet v k)

/-- The concatenated per-vendor dynamic-key sequences of `Compare.jsx`. -/
def dynKeySeqC : List Vendor → List (List Char)
  | [] => []
  | v :: rest => (keysOf v).filter (isDynKeyC v) ++ dynKeySeqC rest

/-- `dynamicAttributeKeys` from `Compare.jsx` (lines 55-64): the full
deduplicated union, with no cap. -/
def dynamicAttributeKeys (sel : List Vendor) : List (List Char) := dedupFirst (dynKeySeqC sel)

/-- One row of the four-way suitability breakdown of
`SuitabilityScoreTab` in `VendorDetail.jsx`. -/
structure ScoreRow where
  name : String
  description : String
  score : ℤ
  maxScore : ℤ
  weight : ℤ
deriving DecidableEq, Repr

/-- JS `Math.round` into the integers. -/
def jsRoundZ (q : ℚ) : ℤ := ⌊q + 1/2⌋

/-- The price row: `Math.round((totalScore/100)*38 + Math.random()*2)`,
clamped at 40; `r1` is the `Math.random()` draw. -/
def priceRow (totalScore r1 : ℚ) : ScoreRow :=
  ⟨"Price Competitiveness", "Vs. Market Benchmark & Budget",
   min (jsRoundZ (totalScore/100*38 + r1*2)) 40, 40, 40⟩

/-- The availability row: `Math.round((totalScore/100)*27 + Math.random()*3)`,
clamped at 30; `r2` is the `Math.random()` draw. -/
def availabilityRow (totalScore r2 : ℚ) : ScoreRow :=
  ⟨"Availability & Lead Time", "Stock Levels & Delivery Speed",
   min (jsRoundZ (totalScore/100*27 + r2*3)) 30, 30, 30⟩

/-- The quality row: forced to 20 with two or more certifications, otherwise
proportional to the total; clamped at 20. -/
def qualityRow (totalScore : ℚ) (certCount : ℕ) : ScoreRow :=
  ⟨"Quality & Compliance", "Certifications (ISO, GMP) & Specs",
   min (if 2 ≤ certCount then 20 else jsRoundZ (totalScore/100*20)) 20, 20, 20⟩

/-- The data-confidence row: forced to 10 for current partners or internal
sources, otherwise proportional to the total; clamped at 10. -/
def dataConfidenceRow (totalScore : ℚ) (isCurrentPartner sourceINT : Bool) : ScoreRow :=
  ⟨"Data Confidence", "Internal Verified vs. External Scraped",
   min (if isCurrentPartner || sourceINT then 10 else jsRoundZ (totalScore/100*10)) 10, 10, 10⟩

/-- `scoreCategories` from `SuitabilityScoreTab` (lines 506-545 of
`VendorDetail.jsx`), as a function of the vendor entity data
(`totalScore = vendor.suitabilityScore || 95`, the certification count and
the partner/source flags) and of the two `Math.random()` draws `r1`, `r2`. -/
def scoreCategories (totalScore : ℚ) (certCount : ℕ) (isCurrentPartner sourceINT : Bool)
    (r1 r2 : ℚ) : List ScoreRow :=
  [priceRow totalScore r1, availabilityRow totalScore r2,
   qualityRow totalScore certCount, dataConfidenceRow totalScore isCurrentPartner sourceINT]

/-- Does the value, when a string, end in no bracketed-URL and no
markdown-link citation (so that the end-anchored replaces would leave it
unchanged)?  Non-strings trivially qualify. -/
def noTrailingCitation : JsValue → Bool
  | .str s => !(hasEndMatch isBracketCitationEnd s || hasEndMatch isMdCitationEnd s)
  | _ => true

/-- Certification normalization as worded by the specification (for
comparison with `parseCertifications`): an array maps each entry through the
citation stripper; a string is split on commas, each piece trimmed, empty
pieces dropped; anything else yields the empty list.  The spec's wording
omits the per-piece citation strip that the code performs. -/
def certsPerClaim : JsValue → List JsValue
  | .arr l => l.map cleanUrlCitations
  | .str s => (((splitOnChar ',' s).map jsTrim).filter (fun p => !p.isEmpty)).map (fun p => JsValue.str p)
  | _ => []

/-- The reserved fixed-field names named by the data-model invariant. -/
def reservedSampleKeys : List (List Char) :=
  [lc "id", lc "name", lc "source", lc "region", lc "leadTime",
   lc "suitabilityScore", lc "certifications"]

/-- The keys of the entries the nested-specs copy loop iterates over. -/
def specsKeysOf (raw : JsValue) : List (List Char) := (specsEntriesOf raw).map Prod.fst

/-- Do the spec entries of the raw document avoid the three fixed fields
`source`, `isCurrentPartner` and `internalHistory`? -/
def specsAvoidsPartnerKeys (raw : JsValue) : Bool :=
  (specsEntriesOf raw).all (fun e =>
    !(decide (e.1 = lc "source")) && !(decide (e.1 = lc "isCurrentPartner")) &&
      !(decide (e.1 = lc "internalHistory")))

/-- Counterexample input for the fixed-field collision invariant: a raw
document whose `specs` mapping contains an entry named `name`. -/
def rawSpoofName : JsValue :=
  .obj [(lc "vendor_name", .str (lc "Real")),
        (lc "specs", .obj [(lc "name", .obj [(lc "value", .str (lc "Spoofed"))])])]

/-- A plain raw document with no `specs` mapping. -/
def rawNoSpecs : JsValue := .obj [(lc "vendor_name", .str (lc "Real"))]

/-- Counterexample input for the external-vendor invariant: a raw document
whose `specs` mapping contains an entry named `isCurrentPartner`. -/
def rawSpoofPartner : JsValue :=
  .obj [(lc "vendor_name", .str (lc "Vendor X")),
        (lc "specs", .obj [(lc "isCurrentPartner", .obj [(lc "value", .str (lc "yes"))])])]

/-- A raw document whose specs avoid the partner-related fixed fields. -/
def rawHarmlessSpecs : JsValue :=
  .obj [(lc "vendor_name", .str (lc "Clean Vendor")),
        (lc "specs", .obj [(lc "color", .obj [(lc "value", .str (lc "blue"))])])]

/-- A vendor entity carrying five dynamic attributes (witnesses that the
comparison-page unifier applies no four-key cap). -/
def vendorFiveKeys : Vendor :=
  [(lc "attr_a", .str (lc "1")), (lc "attr_b", .str (lc "2")), (lc "attr_c", .str (lc "3")),
   (lc "attr_d", .str (lc "4")), (lc "attr_e", .str (lc "5"))]

/-- Counterexample input for the certification round-trip wording: a raw
document whose certification string carries a citation on each entry. -/
def rawCertPair : JsValue :=
  .obj [(lc "certifications", .str (lc "USP [http://a], EP [http://b]"))]

/-- A raw document carrying both score hints. -/
def rawBothScores : JsValue :=
  .obj [(lc "suitability_score", .num 42), (lc "recommendation_score", .num (87/100))]

/-- A raw document carrying only a recommendation score. -/
def rawRecScore : JsValue := .obj [(lc "recommendation_score", .num (87/100))]

/-- A raw document carrying no score hint. -/
def rawNoScore : JsValue := .obj []

theorem trimStart_trimStart (s : List Char) : trimStart (trimStart s) = trimStart s := by
  unfold trimStart
  induction s with
  | nil => rfl
  | cons c t ih =>
    by_cases h : isJsSpace c
    · simpa [List.dropWhile_cons, h] using ih
    · simp [List.dropWhile_cons, h]

theorem trimEnd_trimEnd (s : List Char) : trimEnd (trimEnd s) = trimEnd s := by
  induction s with
  | nil => rfl
  | cons c t ih =>
    by_cases hr : (trimEnd t).isEmpty
    · by_cases hc : isJsSpace c
      · simp [trimEnd, hr, hc]
      · simp [trimEnd, hr, hc]
    · simp [trimEnd, hr, ih]

theorem trimStart_trimEnd (x : List Char) (h : trimStart x = x) :
    trimStart (trimEnd x) = trimEnd x := by
  cases x with
  | nil => rfl
  | cons c t =>
    have hc : isJsSpace c = false := by
      by_contra hcc
      have hcc2 : isJsSpace c = true := by
        cases hcv : isJsSpace c
        · exact absurd hcv hcc
        · rfl
      have hlen := congrArg List.length h
      simp only [trimStart, List.dropWhile_cons, hcc2, if_true, List.length_cons] at hlen
      have hle := (List.dropWhile_sublist (l := t) isJsSpace).length_le
      omega
    by_cases hr : (trimEnd t).isEmpty
    · simp [trimEnd, hr, hc, trimStart, List.dropWhile_cons]
    · simp [trimEnd, hr, hc, trimStart, List.dropWhile_cons]

theorem jsTrim_jsTrim (s : List Char) : jsTrim (jsTrim s) = jsTrim s := by
  unfold jsTrim
  rw [trimStart_trimEnd (trimStart s) (trimStart_trimStart s), trimEnd_trimEnd]

theorem replaceEndMatch_of_no_match (p : List Char → Bool) (s : List Char)
    (h : hasEndMatch p s = false) : replaceEndMatch p s = s := by
  unfold hasEndMatch at h
  unfold replaceEndMatch
  rw [List.any_eq_false] at h
  rw [List.find?_eq_none.mpr h]

theorem cleanedStr_of_no_match (s : List Char) (h1 : jsTrim s = s)
    (h2 : hasEndMatch isBracketCitationEnd s = false)
    (h3 : hasEndMatch isMdCitationEnd s = false) : cleanedStr s = s := by
  unfold cleanedStr
  rw [replaceEndMatch_of_no_match _ _ h2, h1, replaceEndMatch_of_no_match _ _ h3, h1]

theorem jsTrim_cleanedStr (s : List Char) : jsTrim (cleanedStr s) = cleanedStr s := by
  unfold cleanedStr
  exact jsTrim_jsTrim _

theorem cleanUrlCitations_str_fix (s : List Char) (h1 : jsTrim s = s)
    (h2 : hasEndMatch isBracketCitationEnd s = false)
    (h3 : hasEndMatch isMdCitationEnd s = false) :
    cleanUrlCitations (.str s) = .str s := by
  simp only [cleanUrlCitations]
  rw [cleanedStr_of_no_match s h1 h2 h3]
  split <;> rfl

theorem cleanUrlCitations_of_not_str (v : JsValue) (h : isStr v = false) :
    cleanUrlCitations v = v := by
  cases v with
  | undefined => rfl
  | null => rfl
  | nan => rfl
  | bool b => rfl
  | num q => rfl
  | str s => exact absurd h (by simp [isStr])
  | arr l => rfl
  | obj fs => rfl

theorem objGet_setField_ne (fs : Vendor) (k2 k : List Char) (v : JsValue) (h : k2 ≠ k) :
    objGet (setField fs k2 v) k = objGet fs k := by
  have hd : decide (k2 = k) = false := decide_eq_false h
  induction fs with
  | nil => simp [setField, objGet, List.find?, hd]
  | cons a t ih =>
    by_cases h1 : a.1 = k2
    · simp only [setField, if_pos h1, objGet, List.find?]
      rw [h1, hd]
    · simp only [setField, if_neg h1, objGet, List.find?]
      cases hak : decide (a.1 = k) with
      | true => rfl
      | false => exact ih

theorem hasField_setField_mono (fs : Vendor) (k2 k : List Char) (v : JsValue)
    (h : hasField fs k = true) : hasField (setField fs k2 v) k = true := by
  induction fs with
  | nil => simp [hasField] at h
  | cons a t ih =>
    by_cases h1 : a.1 = k2
    · simp only [setField, if_pos h1]
      simp only [hasField, List.any_cons] at h ⊢
      exact h
    · simp only [setField, if_neg h1]
      simp only [hasField, List.any_cons] at h ⊢
      cases hak : decide (a.1 = k) with
      | true => simp [hak]
      | false =>
        simp only [hak, Bool.false_or] at h ⊢
        exact ih h

theorem objGet_specsStep_ne (tv : Vendor) (k2 k : List Char) (sv : JsValue) (h : k2 ≠ k) :
    objGet (specsStep tv k2 sv) k = objGet tv k := by
  unfold specsStep
  split_ifs with h1 h2 h3
  · rfl
  · exact objGet_setField_ne tv k2 k _ h
  · rfl
  · rfl

theorem objGet_specsStep_cert (tv : Vendor) (k2 : List Char) (sv : JsValue) :
    objGet (specsStep tv k2 sv) (lc "certifications") = objGet tv (lc "certifications") := by
  by_cases h : k2 = lc "certifications"
  · have hskip : k2 = lc "price" ∨ k2 = lc "certifications" := Or.inr h
    unfold specsStep
    rw [if_pos hskip]
  · exact objGet_specsStep_ne tv k2 _ sv h

theorem hasField_specsStep (tv : Vendor) (k2 k : List Char) (sv : JsValue)
    (h : hasField tv k = true) : hasField (specsStep tv k2 sv) k = true := by
  unfold specsStep
  split_ifs with h1 h2 h3
  · exact h
  · exact hasField_setField_mono tv k2 k _ h
  · exact h
  · exact h

theorem objGet_specsFold_of_avoid (entries : List (List Char × JsValue)) (k : List Char)
    (h : ∀ e ∈ entries, e.1 ≠ k) :
    ∀ tv : Vendor, objGet (specsFold tv entries) k = objGet tv k := by
  induction entries with
  | nil => intro tv; rfl
  | cons e rest ih =>
    intro tv
    have hrest : ∀ e2 ∈ rest, e2.1 ≠ k := fun e2 he2 => h e2 (List.mem_cons_of_mem _ he2)
    calc objGet (specsFold (specsStep tv e.1 e.2) rest) k
        = objGet (specsStep tv e.1 e.2) k := ih hrest _
      _ = objGet tv k := objGet_specsStep_ne tv e.1 k e.2 (h e (List.mem_cons_self _ _))

theorem objGet_specsFold_cert (entries : List (List Char × JsValue)) :
    ∀ tv : Vendor, objGet (specsFold tv entries) (lc "certifications")
      = objGet tv (lc "certifications") := by
  induction entries with
  | nil => intro tv; rfl
  | cons e rest ih =>
    intro tv
    calc objGet (specsFold (specsStep tv e.1 e.2) rest) (lc "certifications")
        = objGet (specsStep tv e.1 e.2) (lc "certifications") := ih _
      _ = objGet tv (lc "certifications") := objGet_specsStep_cert tv e.1 e.2

theorem hasField_specsFold (entries : List (List Char × JsValue)) (k : List Char) :
    ∀ tv : Vendor, hasField tv k = true → hasField (specsFold tv entries) k = true := by
  induction entries with
  | nil => intro tv h; exact h
  | cons e rest ih =>
    intro tv h
    exact ih _ (hasField_specsStep tv e.1 k e.2 h)

theorem objGet_legacyStep_present (tv : Vendor) (k2 k : List Char) (v : JsValue)
    (h : hasField tv k = true) : objGet (legacyStep tv k2 v) k = objGet tv k := by
  by_cases hk : k2 = k
  · subst hk
    simp [legacyStep, h]
  · unfold legacyStep
    split_ifs with h1
    · cases v with
      | undefined => simp [isUndefined] at h1
      | null => simp [isNullV] at h1
      | nan => exact objGet_setField_ne tv k2 k _ hk
      | bool b => exact objGet_setField_ne tv k2 k _ hk
      | num q => exact objGet_setField_ne tv k2 k _ hk
      | str s => exact objGet_setField_ne tv k2 k _ hk
      | arr l => rfl
      | obj fs => rfl
    · rfl

theorem hasField_legacyStep (tv : Vendor) (k2 k : List Char) (v : JsValue)
    (h : hasField tv k = true) : hasField (legacyStep tv k2 v) k = true := by
  unfold legacyStep
  split_ifs with h1
  · cases v with
    | undefined => simp [isUndefined] at h1
    | null => simp [isNullV] at h1
    | nan => exact hasField_setField_mono tv k2 k _ h
    | bool b => exact hasField_setField_mono tv k2 k _ h
    | num q => exact hasField_setField_mono tv k2 k _ h
    | str s => exact hasField_setField_mono tv k2 k _ h
    | arr l => exact h
    | obj fs => exact h
  · exact h

theorem objGet_legacyFold_present (entries : List (List Char × JsValue)) (k : List Char) :
    ∀ tv : Vendor, hasField tv k = true → objGet (legacyFold tv entries) k = objGet tv k := by
  induction entries with
  | nil => intro tv _; rfl
  | cons e rest ih =>
    intro tv h
    calc objGet (legacyFold (legacyStep tv e.1 e.2) rest) k
        = objGet (legacyStep tv e.1 e.2) k := ih _ (hasField_legacyStep tv e.1 k e.2 h)
      _ = objGet tv k := objGet_legacyStep_present tv e.1 k e.2 h

theorem hasField_baseVendor_reserved (raw : JsValue) (i : ℕ) (k : List Char)
    (hk : k ∈ reservedSampleKeys) : hasField (baseVendor raw i) k = true := by
  fin_cases hk <;> rfl

theorem objGet_transform_preserved (raw : JsValue) (i : ℕ) (k : List Char)
    (hbase : hasField (baseVendor raw i) k = true)
    (havoid : (∀ e ∈ specsEntriesOf raw, e.1 ≠ k) ∨ k = lc "certifications") :
    objGet (transformApiVendor raw i) k = objGet (baseVendor raw i) k := by
  unfold transformApiVendor
  have hspecs : objGet (specsFold (baseVendor raw i) (specsEntriesOf raw)) k
      = objGet (baseVendor raw i) k := by
    rcases havoid with h | h
    · exact objGet_specsFold_of_avoid _ _ h _
    · subst h
      exact objGet_specsFold_cert _ _
  have hf : hasField (specsFold (baseVendor raw i) (specsEntriesOf raw)) k = true :=
    hasField_specsFold _ _ _ hbase
  rw [objGet_legacyFold_present _ _ _ hf, hspecs]

theorem mem_dedupAux (l : List (List Char)) :
    ∀ seen k, k ∈ dedupAux seen l ↔ (k ∈ l ∧ k ∉ seen) := by
  induction l with
  | nil => intro seen k; simp [dedupAux]
  | cons c t ih =>
    intro seen k
    by_cases hc : c ∈ seen
    · rw [dedupAux, if_pos hc, ih seen k]
      constructor
      · rintro ⟨hkt, hks⟩
        exact ⟨List.mem_cons_of_mem _ hkt, hks⟩
      · rintro ⟨hkc, hks⟩
        rcases List.mem_cons.mp hkc with rfl | hkt
        · exact absurd hc hks
        · exact ⟨hkt, hks⟩
    · rw [dedupAux, if_neg hc]
      by_cases hkc : k = c
      · subst hkc
        simp [hc]
      · simp only [List.mem_cons, hkc, false_or, ih (c :: seen) k]

theorem nodup_dedupAux (l : List (List Char)) : ∀ seen, (dedupAux seen l).Nodup := by
  induction l with
  | nil => intro seen; simp [dedupAux]
  | cons c t ih =>
    intro seen
    by_cases hc : c ∈ seen
    · rw [dedupAux, if_pos hc]
      exact ih seen
    · rw [dedupAux, if_neg hc]
      refine List.nodup_cons.mpr ⟨?_, ih (c :: seen)⟩
      intro hmem
      exact ((mem_dedupAux t (c :: seen) c).mp hmem).2 (List.mem_cons_self _ _)

theorem sublist_dedupAux (l : List (List Char)) :
    ∀ seen, List.Sublist (dedupAux seen l) l := by
  induction l with
  | nil => intro seen; simp [dedupAux]
  | cons c t ih =>
    intro seen
    by_cases hc : c ∈ seen
    · rw [dedupAux, if_pos hc]
      exact (ih seen).trans (List.sublist_cons_self c t)
    · rw [dedupAux, if_neg hc]
      exact List.Sublist.cons₂ c (ih (c :: seen))

theorem mem_dynKeySeqR (vs : List Vendor) (k : List Char) :
    k ∈ dynKeySeqR vs ↔ ∃ v ∈ vs, k ∈ keysOf v ∧ isDynKeyR k = true := by
  induction vs with
  | nil => simp [dynKeySeqR]
  | cons v rest ih =>
    simp only [dynKeySeqR, List.mem_append, List.mem_filter, ih, List.mem_cons]
    constructor
    · rintro (⟨hkv, hdk⟩ | ⟨v2, hv2, hkv2, hdk2⟩)
      · exact ⟨v, Or.inl rfl, hkv, hdk⟩
      · exact ⟨v2, Or.inr hv2, hkv2, hdk2⟩
    · rintro ⟨v2, hv2 | hv2, hkv2, hdk2⟩
      · subst hv2
        exact Or.inl ⟨hkv2, hdk2⟩
      · exact Or.inr ⟨v2, hv2, hkv2, hdk2⟩

theorem mem_dynKeySeqC (sel : List Vendor) (k : List Char) :
    k ∈ dynKeySeqC sel ↔ ∃ v ∈ sel, k ∈ keysOf v ∧ isDynKeyC v k = true := by
  induction sel with
  | nil => simp [dynKeySeqC]
  | cons v rest ih =>
    simp only [dynKeySeqC, List.mem_append, List.mem_filter, ih, List.mem_cons]
    constructor
    · rintro (⟨hkv, hdk⟩ | ⟨v2, hv2, hkv2, hdk2⟩)
      · exact ⟨v, Or.inl rfl, hkv, hdk⟩
      · exact ⟨v2, Or.inr hv2, hkv2, hdk2⟩
    · rintro ⟨v2, hv2 | hv2, hkv2, hdk2⟩
      · subst hv2
        exact Or.inl ⟨hkv2, hdk2⟩
      · exact Or.inr ⟨v2, hv2, hkv2, hdk2⟩

theorem isUndef_eq_false (x : JsValue) (h : x ≠ JsValue.undefined) : isUndefined x = false := by
  cases x with
  | undefined => exact absurd rfl h
  | null => rfl
  | nan => rfl
  | bool b => rfl
  | num q => rfl
  | str s => rfl
  | arr l => rfl
  | obj fs => rfl

theorem transform_partner_fields (raw : JsValue) (i : ℕ)
    (h : specsAvoidsPartnerKeys raw = true) :
    objGet (transformApiVendor raw i) (lc "source") = .str (lc "EXT")
    ∧ objGet (transformApiVendor raw i) (lc "isCurrentPartner") = JsValue.bool false
    ∧ objGet (transformApiVendor raw i) (lc "internalHistory") = JsValue.null := by
  have hav : ∀ e ∈ specsEntriesOf raw,
      e.1 ≠ lc "source" ∧ e.1 ≠ lc "isCurrentPartner" ∧ e.1 ≠ lc "internalHistory" := by
    intro e he
    have he2 := List.all_eq_true.mp h e he
    simp only [Bool.and_eq_true, Bool.not_eq_true', decide_eq_false_iff_not] at he2
    exact ⟨he2.1.1, he2.1.2, he2.2⟩
  refine ⟨?_, ?_, ?_⟩
  · calc objGet (transformApiVendor raw i) (lc "source")
        = objGet (baseVendor raw i) (lc "source") :=
          objGet_transform_preserved raw i _ rfl (Or.inl (fun e he => (hav e he).1))
      _ = .str (lc "EXT") := rfl
  · calc objGet (transformApiVendor raw i) (lc "isCurrentPartner")
        = objGet (baseVendor raw i) (lc "isCurrentPartner") :=
          objGet_transform_preserved raw i _ rfl (Or.inl (fun e he => (hav e he).2.1))
      _ = JsValue.bool false := rfl
  · calc objGet (transformApiVendor raw i) (lc "internalHistory")
        = objGet (baseVendor raw i) (lc "internalHistory") :=
          objGet_transform_preserved raw i _ rfl (Or.inl (fun e he => (hav e he).2.2))
      _ = JsValue.null := rfl

theorem filter_partner_empty : ∀ raws : List JsValue,
    (∀ raw ∈ raws, specsAvoidsPartnerKeys raw = true) →
    ∀ i : ℕ, filterCurrentPartner (transformAllFrom i raws) = [] := by
  intro raws
  induction raws with
  | nil => intro _ i; rfl
  | cons r rest ih =>
    intro h i
    have hr := h r (List.mem_cons_self _ _)
    have hfield := (transform_partner_fields r i hr).2.1
    have hp : jsTruthy (objGet (transformApiVendor r i) (lc "isCurrentPartner")) = false := by
      rw [hfield]
      rfl
    show filterCurrentPartner (transformApiVendor r i :: transformAllFrom (i + 1) rest) = []
    unfold filterCurrentPartner
    rw [List.filter_cons]
    simp only [hp, Bool.false_eq_true, if_false]
    exact ih (fun raw hraw => h raw (List.mem_cons_of_mem _ hraw)) (i + 1)

/-- C1 counterexample: the four-row breakdown is not a deterministic
function of the vendor entity.  With total score 95, no certifications and
an external non-partner source, the `Math.random()` draws 0 and 1/2 (both
legal draws, in `[0, 1)`) produce different price rows (36 versus 37). -/
theorem C1_breakdown_not_deterministic :
    ((0 : ℚ) ≤ 0 ∧ (0 : ℚ) < 1) ∧ ((0 : ℚ) ≤ 1/2 ∧ (1/2 : ℚ) < 1) ∧
    scoreCategories 95 0 false false 0 0 ≠ scoreCategories 95 0 false false (1/2) 0 := by
  with_unfolding_all decide

/-- C1 (corrected): only part of the breakdown is deterministic in the
vendor entity.  For every total score, certification count and
partner/source flags, and any two pairs of `Math.random()` draws: all four
`maxScore`s and `weight`s agree, the quality row and the data-confidence row
agree (they do not read the random draws), while the price and availability
rows are determined only once their respective draws are fixed. -/
theorem C1_breakdown_partially_deterministic (t : ℚ) (c : ℕ) (p s : Bool) (r1 r2 r1b r2b : ℚ) :
    (scoreCategories t c p s r1 r2).map ScoreRow.maxScore
        = (scoreCategories t c p s r1b r2b).map ScoreRow.maxScore
    ∧ (scoreCategories t c p s r1 r2).map ScoreRow.weight
        = (scoreCategories t c p s r1b r2b).map ScoreRow.weight
    ∧ (scoreCategories t c p s r1 r2)[2]? = (scoreCategories t c p s r1b r2b)[2]?
    ∧ (scoreCategories t c p s r1 r2)[3]? = (scoreCategories t c p s r1b r2b)[3]?
    ∧ (scoreCategories t c p s r1 r2)[0]? = some (priceRow t r1)
    ∧ (scoreCategories t c p s r1 r2)[1]? = some (availabilityRow t r2) :=
  ⟨rfl, rfl, rfl, rfl, rfl, rfl⟩

/-- C2 counterexample: the nested-specs copy loop does overwrite reserved
fixed fields.  A raw document whose `specs` mapping contains an entry named
`name` replaces the fixed `name` field (set from `vendor_name`) with the
spec value. -/
theorem C2_specs_copy_overwrites_name :
    objGet (transformApiVendor rawSpoofName 0) (lc "name") = .str (lc "Spoofed")
    ∧ objGet (baseVendor rawSpoofName 0) (lc "name") = .str (lc "Real")
    ∧ objGet (transformApiVendor rawSpoofName 0) (lc "name")
        ≠ objGet (baseVendor rawSpoofName 0) (lc "name") := by
  refine ⟨rfl, rfl, ?_⟩
  intro h
  rw [show objGet (transformApiVendor rawSpoofName 0) (lc "name")
        = JsValue.str (lc "Spoofed") from rfl,
      show objGet (baseVendor rawSpoofName 0) (lc "name")
        = JsValue.str (lc "Real") from rfl] at h
  exact absurd (JsValue.str.inj h) (by decide)

/-- C2 (corrected): the legacy top-level copy never overwrites any existing
field, and the nested-specs copy skips only `price` and `certifications` —
so a reserved fixed field keeps its base value exactly when it is
`certifications` or when no specs entry bears its name.  Any other reserved
field (`id`, `name`, `source`, `region`, `leadTime`, `suitabilityScore`) can
be overwritten by a same-named specs entry. -/
theorem C2_fixed_fields_preserved_when_specs_avoid (raw : JsValue) (i : ℕ) (k : List Char)
    (hres : k ∈ reservedSampleKeys)
    (hav : k = lc "certifications" ∨ k ∉ specsKeysOf raw) :
    objGet (transformApiVendor raw i) k = objGet (baseVendor raw i) k := by
  refine objGet_transform_preserved raw i k (hasField_baseVendor_reserved raw i k hres) ?_
  rcases hav with h | h
  · exact Or.inr h
  · refine Or.inl ?_
    intro e he heq
    refine h ?_
    rw [← heq]
    exact List.mem_map_of_mem Prod.fst he

/-- C2 witness: for a raw document with no specs mapping, the reserved
`name` field of the transform equals its base value. -/
theorem C2_fixed_fields_preserved_witness :
    ((lc "name") ∈ reservedSampleKeys
      ∧ ((lc "name") = lc "certifications" ∨ (lc "name") ∉ specsKeysOf rawNoSpecs))
    ∧ objGet (transformApiVendor rawNoSpecs 0) (lc "name")
        = objGet (baseVendor rawNoSpecs 0) (lc "name") :=
  ⟨⟨by decide, Or.inr (by decide)⟩,
   C2_fixed_fields_preserved_when_specs_avoid rawNoSpecs 0 (lc "name")
     (by decide) (Or.inr (by decide))⟩

/-- C3 (confirmed): the identity resolver returns score 0 (and classifies as
reseller) when either name is empty or missing (`undefined` on the JS-value
side, where the manufacturer name enters the call); classification is
exactly `score >= 0.5`; and a score of exactly 0.5 (reached e.g. by the
pair `"abcd"` / `"abc bcd"`) classifies as manufacturer-direct. -/
theorem C3_identity_resolver_threshold :
    (∀ b : List Char, fuzzyMatch [] b = 0 ∧ fuzzyMatch b [] = 0
      ∧ isManufacturerDirect [] b = false ∧ isManufacturerDirect b [] = false)
    ∧ (∀ b : JsValue, fuzzyMatchJs JsValue.undefined b = 0
      ∧ fuzzyMatchJs b JsValue.undefined = 0
      ∧ isManufacturerDirectJs JsValue.undefined b = false
      ∧ isManufacturerDirectJs b JsValue.undefined = false)
    ∧ (∀ a b : List Char, isManufacturerDirect a b = true ↔ (1 : ℚ)/2 ≤ fuzzyMatch a b)
    ∧ (fuzzyMatch (lc "abcd") (lc "abc bcd") = 1/2
      ∧ isManufacturerDirect (lc "abcd") (lc "abc bcd") = true) := by
  refine ⟨?_, ?_, ?_, ?_⟩
  · intro b
    have h1 : fuzzyMatch [] b = 0 := by simp [fuzzyMatch]
    have h2 : fuzzyMatch b [] = 0 := by simp [fuzzyMatch]
    refine ⟨h1, h2, ?_, ?_⟩
    · unfold isManufacturerDirect
      rw [h1]
      exact decide_eq_false (by norm_num)
    · unfold isManufacturerDirect
      rw [h2]
      exact decide_eq_false (by norm_num)
  · intro b
    have h1 : fuzzyMatchJs JsValue.undefined b = 0 := by cases b <;> rfl
    have h2 : fuzzyMatchJs b JsValue.undefined = 0 := by cases b <;> rfl
    refine ⟨h1, h2, ?_, ?_⟩
    · unfold isManufacturerDirectJs
      rw [h1]
      exact decide_eq_false (by norm_num)
    · unfold isManufacturerDirectJs
      rw [h2]
      exact decide_eq_false (by norm_num)
  · intro a b
    simp [isManufacturerDirect]
  · constructor
    · with_unfolding_all decide
    · with_unfolding_all decide

/-- C4 (confirmed): the result-list unifier returns the first four keys of
the deduplicated, non-reserved key union in order of first appearance (so at
most 4 keys), while the comparison-page unifier returns the full
deduplicated union of its dynamic keys with no cap — both deduplicated
(`Nodup`), both preserving first-appearance order (sublists of the
concatenated key sequences), with membership exactly the union over the
vendors; a five-attribute vendor shows the comparison context exceeding
four keys. -/
theorem C4_attribute_unifier_cap :
    (∀ vs : List Vendor,
        comparisonAttributes vs = (allDynamicKeys vs).take 4
      ∧ (comparisonAttributes vs).length ≤ 4
      ∧ (allDynamicKeys vs).Nodup
      ∧ List.Sublist (allDynamicKeys vs) (dynKeySeqR vs)
      ∧ (∀ k, k ∈ allDynamicKeys vs ↔ ∃ v ∈ vs, k ∈ keysOf v ∧ isDynKeyR k = true))
    ∧ (∀ sel : List Vendor,
        (dynamicAttributeKeys sel).Nodup
      ∧ List.Sublist (dynamicAttributeKeys sel) (dynKeySeqC sel)
      ∧ (∀ k, k ∈ dynamicAttributeKeys sel ↔ ∃ v ∈ sel, k ∈ keysOf v ∧ isDynKeyC v k = true))
    ∧ dynamicAttributeKeys [vendorFiveKeys]
        = [lc "attr_a", lc "attr_b", lc "attr_c", lc "attr_d", lc "attr_e"] := by
  refine ⟨?_, ?_, rfl⟩
  · intro vs
    refine ⟨rfl, ?_, nodup_dedupAux _ _, sublist_dedupAux _ _, ?_⟩
    · exact List.length_take_le 4 (allDynamicKeys vs)
    · intro k
      rw [allDynamicKeys, dedupFirst, mem_dedupAux]
      simp [mem_dynKeySeqR]
  · intro sel
    refine ⟨nodup_dedupAux _ _, sublist_dedupAux _ _, ?_⟩
    intro k
    rw [dynamicAttributeKeys, dedupFirst, mem_dedupAux]
    simp [mem_dynKeySeqC]

/-- C5 (confirmed): the suitability total is `suitability_score` whenever
that field is defined (so it wins over `recommendation_score`), else
`round(recommendation_score * 100)` when that is a number, else the
positional fallback `95 - 3*index`, which is strictly decreasing in the
position. -/
theorem C5_suitability_total_selection :
    (∀ (v : JsValue) (i : ℕ), getField v (lc "suitability_score") ≠ JsValue.undefined →
        rawSuitability v i = getField v (lc "suitability_score"))
    ∧ (∀ (v : JsValue) (i : ℕ) (q : ℚ), getField v (lc "suitability_score") = JsValue.undefined →
        getField v (lc "recommendation_score") = JsValue.num q →
        rawSuitability v i = JsValue.num (jsRoundQ (q * 100)))
    ∧ (∀ (v : JsValue) (i : ℕ), getField v (lc "suitability_score") = JsValue.undefined →
        getField v (lc "recommendation_score") = JsValue.undefined →
        rawSuitability v i = JsValue.num (95 - 3 * (i : ℚ)))
    ∧ (∀ i j : ℕ, i < j → (95 - 3 * (j : ℚ)) < (95 - 3 * (i : ℚ))) := by
  refine ⟨?_, ?_, ?_, ?_⟩
  · intro v i h
    simp [rawSuitability, isUndef_eq_false _ h]
  · intro v i q h1 h2
    simp [rawSuitability, h1, h2, isUndefined, roundTimes100]
  · intro v i h1 h2
    simp [rawSuitability, h1, h2, isUndefined]
  · intro i j hij
    have hq : (i : ℚ) < (j : ℚ) := by exact_mod_cast hij
    linarith

/-- C5 witness: concrete raw documents exercising all three selection
branches, and the fallback decreasing from position 2 to position 7. -/
theorem C5_suitability_total_witness :
    rawSuitability rawBothScores 0 = getField rawBothScores (lc "suitability_score")
    ∧ rawSuitability rawRecScore 3 = JsValue.num (jsRoundQ ((87/100) * 100))
    ∧ rawSuitability rawNoScore 5 = JsValue.num (95 - 3 * ((5 : ℕ) : ℚ))
    ∧ (95 - 3 * ((7 : ℕ) : ℚ)) < (95 - 3 * ((2 : ℕ) : ℚ)) :=
  ⟨C5_suitability_total_selection.1 rawBothScores 0 (fun h => JsValue.noConfusion h),
   C5_suitability_total_selection.2.1 rawRecScore 3 (87/100) rfl rfl,
   C5_suitability_total_selection.2.2.1 rawNoScore 5 rfl rfl,
   C5_suitability_total_selection.2.2.2 2 7 (by norm_num)⟩

/-- C6 counterexample: the citation stripper is not idempotent.  Each
application removes only the last trailing citation, so a string ending in
two stacked bracketed-URL citations changes again on the second
application. -/
theorem C6_strip_not_idempotent :
    cleanUrlCitations (.str (lc "a [http://x] [http://y]")) = .str (lc "a [http://x]")
    ∧ cleanUrlCitations (cleanUrlCitations (.str (lc "a [http://x] [http://y]")))
        = .str (lc "a")
    ∧ cleanUrlCitations (cleanUrlCitations (.str (lc "a [http://x] [http://y]")))
        ≠ cleanUrlCitations (.str (lc "a [http://x] [http://y]")) := by
  refine ⟨rfl, rfl, ?_⟩
  intro h
  rw [show cleanUrlCitations (cleanUrlCitations (.str (lc "a [http://x] [http://y]")))
        = JsValue.str (lc "a") from rfl,
      show cleanUrlCitations (.str (lc "a [http://x] [http://y]"))
        = JsValue.str (lc "a [http://x]") from rfl] at h
  exact absurd (JsValue.str.inj h) (by decide)

/-- C6 (corrected): the stripper is idempotent at every value whose single
application leaves no further trailing citation (in particular at
non-strings); in general each application strips at most one trailing
citation layer, so stacked citations defeat idempotence. -/
theorem C6_strip_idempotent_after_settling (v : JsValue)
    (h : noTrailingCitation (cleanUrlCitations v) = true) :
    cleanUrlCitations (cleanUrlCitations v) = cleanUrlCitations v := by
  cases v with
  | str s =>
    by_cases he : (cleanedStr s).isEmpty
    · have hv : cleanUrlCitations (JsValue.str s) = JsValue.str s := by
        simp [cleanUrlCitations, he]
      rw [hv]
      exact hv
    · have hv : cleanUrlCitations (JsValue.str s) = JsValue.str (cleanedStr s) := by
        simp [cleanUrlCitations, he]
      rw [hv] at h ⊢
      have hb : hasEndMatch isBracketCitationEnd (cleanedStr s) = false
          ∧ hasEndMatch isMdCitationEnd (cleanedStr s) = false := by
        simpa [noTrailingCitation] using h
      exact cleanUrlCitations_str_fix _ (jsTrim_cleanedStr s) hb.1 hb.2
  | undefined => rfl
  | null => rfl
  | nan => rfl
  | bool b => rfl
  | num q => rfl
  | arr l => rfl
  | obj fs => rfl

/-- C6 witness: a plain string settles after one application. -/
theorem C6_strip_idempotent_witness :
    noTrailingCitation (cleanUrlCitations (.str (lc "plain value"))) = true
    ∧ cleanUrlCitations (cleanUrlCitations (.str (lc "plain value")))
        = cleanUrlCitations (.str (lc "plain value")) :=
  ⟨by decide, C6_strip_idempotent_after_settling _ (by decide)⟩

/-- C7 counterexample: the stripper is not the identity on every string
without a trailing citation — it also trims surrounding whitespace.
`" a"` ends in no citation, yet strip returns `"a"`. -/
theorem C7_strip_not_identity_on_untrimmed :
    cleanUrlCitations (.str (lc " a")) = .str (lc "a")
    ∧ noTrailingCitation (.str (lc " a")) = true
    ∧ cleanUrlCitations (.str (lc " a")) ≠ .str (lc " a") := by
  refine ⟨rfl, by decide, ?_⟩
  intro h
  rw [show cleanUrlCitations (.str (lc " a")) = JsValue.str (lc "a") from rfl] at h
  exact absurd (JsValue.str.inj h) (by decide)

/-- C7 (corrected): every non-string value passes through the stripper
unchanged, and the stripper is the identity on every string that carries no
leading or trailing whitespace and ends in neither a bracketed-URL nor a
markdown-link citation (the whitespace condition is what the original claim
omits). -/
theorem C7_strip_identity_conditions :
    (∀ v : JsValue, isStr v = false → cleanUrlCitations v = v)
    ∧ (∀ s : List Char, jsTrim s = s →
        hasEndMatch isBracketCitationEnd s = false →
        hasEndMatch isMdCitationEnd s = false →
        cleanUrlCitations (.str s) = .str s) :=
  ⟨cleanUrlCitations_of_not_str, fun s h1 h2 h3 => cleanUrlCitations_str_fix s h1 h2 h3⟩

/-- C7 witness: a number and a trimmed citation-free string pass through. -/
theorem C7_strip_identity_witness :
    cleanUrlCitations (JsValue.num 3) = JsValue.num 3
    ∧ cleanUrlCitations (.str (lc "abc def")) = .str (lc "abc def") :=
  ⟨C7_strip_identity_conditions.1 (JsValue.num 3) rfl,
   C7_strip_identity_conditions.2 (lc "abc def") (by decide) (by decide) (by decide)⟩

/-- C8 counterexample: the fuzzy score is not symmetric on the word-overlap
branch.  `fuzzyMatch("abcd", "abc bcd")` matches the single word of the
first side (score 1/2) while `fuzzyMatch("abc bcd", "abcd")` matches both
words of its first side (score 1). -/
theorem C8_fuzzy_not_symmetric :
    fuzzyMatch (lc "abcd") (lc "abc bcd") = 1/2
    ∧ fuzzyMatch (lc "abc bcd") (lc "abcd") = 1
    ∧ fuzzyMatch (lc "abcd") (lc "abc bcd") ≠ fuzzyMatch (lc "abc bcd") (lc "abcd") := by
  with_unfolding_all decide

/-- C8 (corrected): the fuzzy score is symmetric whenever one of the early
branches applies — equal normalizations (score 1) or containment either way
(score 0.9) — and trivially when either name is empty; the word-overlap
branch is not symmetric in general. -/
theorem fuzzyMatch_exact (a b : List Char) (ha : a ≠ []) (hb : b ≠ [])
    (heq : normalizeName a = normalizeName b) : fuzzyMatch a b = 1 := by
  simp only [fuzzyMatch]
  rw [if_neg (fun hx => hx.elim ha hb), if_pos heq]

theorem fuzzyMatch_containment (a b : List Char) (ha : a ≠ []) (hb : b ≠ [])
    (hne : normalizeName a ≠ normalizeName b)
    (hsub : (isSubstringOf (normalizeName b) (normalizeName a)
        || isSubstringOf (normalizeName a) (normalizeName b)) = true) :
    fuzzyMatch a b = 9/10 := by
  simp only [fuzzyMatch]
  rw [if_neg (fun hx => hx.elim ha hb), if_neg hne, if_pos hsub]

theorem C8_fuzzy_symmetric_on_early_branches (a b : List Char)
    (h : normalizeName a = normalizeName b
      ∨ isSubstringOf (normalizeName b) (normalizeName a) = true
      ∨ isSubstringOf (normalizeName a) (normalizeName b) = true) :
    fuzzyMatch a b = fuzzyMatch b a := by
  by_cases ha : a = []
  · simp [fuzzyMatch, ha]
  · by_cases hb : b = []
    · simp [fuzzyMatch, hb]
    · by_cases heq : normalizeName a = normalizeName b
      · rw [fuzzyMatch_exact a b ha hb heq, fuzzyMatch_exact b a hb ha heq.symm]
      · have hsub : (isSubstringOf (normalizeName b) (normalizeName a)
            || isSubstringOf (normalizeName a) (normalizeName b)) = true := by
          rcases h with h | h | h
          · exact absurd h heq
          · simp [h]
          · simp [h]
        have hsub2 : (isSubstringOf (normalizeName a) (normalizeName b)
            || isSubstringOf (normalizeName b) (normalizeName a)) = true := by
          rw [Bool.or_comm] at hsub
          exact hsub
        rw [fuzzyMatch_containment a b ha hb heq hsub,
            fuzzyMatch_containment b a hb ha (fun hh => heq hh.symm) hsub2]

/-- C8 witness: the containment pair from the spec's own example. -/
theorem C8_fuzzy_symmetric_witness :
    (normalizeName (lc "merck") = normalizeName (lc "merck millipore kgaa")
      ∨ isSubstringOf (normalizeName (lc "merck millipore kgaa"))
          (normalizeName (lc "merck")) = true
      ∨ isSubstringOf (normalizeName (lc "merck"))
          (normalizeName (lc "merck millipore kgaa")) = true)
    ∧ fuzzyMatch (lc "merck") (lc "merck millipore kgaa")
        = fuzzyMatch (lc "merck millipore kgaa") (lc "merck") :=
  ⟨by decide, C8_fuzzy_symmetric_on_early_branches _ _ (by decide)⟩

/-- C9 counterexample: the claim's pipeline (strip whole string once, split,
trim, drop empties) disagrees with the code, which additionally
citation-strips each comma piece.  On the raw value
`"USP [http://a], EP [http://b]"` (after the single whole-string strip done
by the spec lookup) the code yields `["USP", "EP"]` while the claim's
pipeline keeps `"USP [http://a]"`. -/
theorem C9_certifications_claim_pipeline_differs :
    parseCertifications (getSpecValue rawCertPair (lc "certifications"))
        = [.str (lc "USP"), .str (lc "EP")]
    ∧ certsPerClaim (getSpecValue rawCertPair (lc "certifications"))
        = [.str (lc "USP [http://a]"), .str (lc "EP")]
    ∧ parseCertifications (getSpecValue rawCertPair (lc "certifications"))
        ≠ certsPerClaim (getSpecValue rawCertPair (lc "certifications")) := by
  refine ⟨rfl, rfl, ?_⟩
  intro h
  rw [show parseCertifications (getSpecValue rawCertPair (lc "certifications"))
        = [JsValue.str (lc "USP"), JsValue.str (lc "EP")] from rfl,
      show certsPerClaim (getSpecValue rawCertPair (lc "certifications"))
        = [JsValue.str (lc "USP [http://a]"), JsValue.str (lc "EP")] from rfl] at h
  injection h with h1 h2
  exact absurd (JsValue.str.inj h1) (by decide)

/-- C9 (corrected): certification normalization maps an array to the
citation-stripped image of each entry; a non-empty non-`'NA'` string to the
list obtained by splitting on commas, trimming each piece,
citation-stripping each piece and dropping falsy pieces (the per-piece
strip is what the original claim omits); an absent value to the empty list
(as is the literal `'NA'`); and the spec's round-trip example
`"USP, EP [https://example.com/x]"` still normalizes to `["USP", "EP"]`
through the spec lookup. -/
theorem C9_certifications_normalization :
    (∀ l : List JsValue, parseCertifications (.arr l) = l.map cleanUrlCitations)
    ∧ (∀ s : List Char, s ≠ [] → s ≠ lc "NA" →
        parseCertifications (.str s)
          = ((splitOnChar ',' s).map (fun p => cleanUrlCitations (.str (jsTrim p)))).filter jsTruthy)
    ∧ parseCertifications JsValue.undefined = []
    ∧ parseCertifications (.str (lc "NA")) = []
    ∧ parseCertifications (getSpecValue
        (.obj [(lc "certifications", .str (lc "USP, EP [https://example.com/x]"))])
        (lc "certifications")) = [.str (lc "USP"), .str (lc "EP")] := by
  refine ⟨fun l => rfl, ?_, rfl, rfl, rfl⟩
  intro s h1 h2
  have he : s.isEmpty = false := by
    cases s with
    | nil => exact absurd rfl h1
    | cons c t => rfl
  have hna : decide (s = lc "NA") = false := decide_eq_false h2
  simp [parseCertifications, jsTruthy, isNAstr, he, hna]

/-- C9 witness: the string branch at a concrete comma-joined value. -/
theorem C9_certifications_witness :
    parseCertifications (.arr [JsValue.str (lc "GMP")])
        = [JsValue.str (lc "GMP")].map cleanUrlCitations
    ∧ parseCertifications (.str (lc "GMP, ISO"))
        = ((splitOnChar ',' (lc "GMP, ISO")).map
            (fun p => cleanUrlCitations (.str (jsTrim p)))).filter jsTruthy :=
  ⟨C9_certifications_normalization.1 [JsValue.str (lc "GMP")],
   C9_certifications_normalization.2.1 (lc "GMP, ISO") (by decide) (by decide)⟩

/-- C10 counterexample: a raw API document whose `specs` mapping contains
an entry named `isCurrentPartner` ends up a truthy current partner, so the
current-partner-only filter on the transformed result set is not empty. -/
theorem C10_partner_filter_not_empty :
    objGet (transformApiVendor rawSpoofPartner 0) (lc "isCurrentPartner") = .str (lc "yes")
    ∧ filterCurrentPartner (transformAllFrom 0 [rawSpoofPartner])
        = [transformApiVendor rawSpoofPartner 0]
    ∧ filterCurrentPartner (transformAllFrom 0 [rawSpoofPartner]) ≠ [] := by
  refine ⟨rfl, rfl, ?_⟩
  rw [show filterCurrentPartner (transformAllFrom 0 [rawSpoofPartner])
        = [transformApiVendor rawSpoofPartner 0] from rfl]
  exact List.cons_ne_nil _ _

/-- C10 (corrected): whenever no raw document carries a specs entry named
`source`, `isCurrentPartner` or `internalHistory`, every transformed vendor
has source `'EXT'`, `isCurrentPartner` false and `internalHistory` null, and
the current-partner-only filter empties the transformed result set; a
same-named specs entry can overwrite these fields and defeat the filter. -/
theorem C10_external_invariant_when_specs_clean (raws : List JsValue)
    (h : ∀ raw ∈ raws, specsAvoidsPartnerKeys raw = true) :
    (∀ raw ∈ raws, ∀ i : ℕ,
        objGet (transformApiVendor raw i) (lc "source") = .str (lc "EXT")
      ∧ objGet (transformApiVendor raw i) (lc "isCurrentPartner") = JsValue.bool false
      ∧ objGet (transformApiVendor raw i) (lc "internalHistory") = JsValue.null)
    ∧ filterCurrentPartner (transformAllFrom 0 raws) = [] :=
  ⟨fun raw hr i => transform_partner_fields raw i (h raw hr),
   filter_partner_empty raws h 0⟩

/-- C10 witness: a document whose specs avoid the partner fields. -/
theorem C10_external_invariant_witness :
    (∀ raw ∈ [rawHarmlessSpecs], specsAvoidsPartnerKeys raw = true)
    ∧ filterCurrentPartner (transformAllFrom 0 [rawHarmlessSpecs]) = [] :=
  ⟨by decide,
   (C10_external_invariant_when_specs_clean [rawHarmlessSpecs] (by decide)).2⟩
